import Mathlib

/-!
Shallow embedding of the decaf377-rdsa signature library (RedDSA over the
decaf377 prime-order group), translated from the Rust sources:
src/hash.rs, src/signature.rs, src/signing_key.rs, src/verification_key.rs,
src/domain.rs, src/error.rs, src/batch.rs.

External collaborators (the decaf377 group, its scalar field Fr, Blake2b-512)
are out of scope of the library itself and are modelled as follows:
the decaf377 group is prime-order cyclic of order rOrder, so both the scalar
field Fr and the group of points are modelled as ZMod rOrder (the group
written additively, scalar multiplication is smul); the canonical 32-byte
little-endian encodings of scalars and the canonical compressed encodings of
group elements are modelled as the 32-byte little-endian encoding of the
canonical representative, with every other byte string rejected at decode,
mirroring the interface decaf377 provides (decode of encode round-trips, and
decoding enforces canonicity).  The Blake2b-512 digest with personalization
decaf377-rdsa--- and the two domain basepoints are opaque external constants,
bundled in the Externals structure and quantified over in every theorem.
-/

/-- Order of the decaf377 group and of its scalar field Fr
(the ed-on-bls12-377 scalar field modulus). -/
def rOrder : Nat := 2111115437357092606062206234695386632838870926408408195193685246394721360383

/-- The decaf377 scalar field, src Fr. -/
abbrev Fr := ZMod rOrder

/-- The decaf377 group (prime-order cyclic of order rOrder, written additively,
modelled by its scalar ring), src decaf377::Element. -/
abbrev Elt := ZMod rOrder

/-- Scalar multiplication in the group model, src Element * Fr. -/
def smul (s : Fr) (P : Elt) : Elt := s * P

/-- Little-endian byte-list to natural number. -/
def leBytesToNat : List Nat → Nat
  | [] => 0
  | b :: rest => b + 256 * leBytesToNat rest

/-- Natural number to k little-endian bytes. -/
def natToLeBytes : Nat → Nat → List Nat
  | 0, _ => []
  | k + 1, n => n % 256 :: natToLeBytes k (n / 256)

/-- Src Fr::from_le_bytes_mod_order: reduce an arbitrary-length little-endian
byte string modulo the field order. -/
def Fr.from_le_bytes_mod_order (b : List Nat) : Fr := (leBytesToNat b : Fr)

/-- Src Fr::to_bytes: canonical 32-byte little-endian encoding. -/
def Fr.to_bytes (s : Fr) : List Nat := natToLeBytes 32 s.val

/-- Src Fr::from_bytes_checked (and Fr::from_bytes, both canonical): decode a
32-byte string, rejecting non-canonical encodings (value not below the field
order); the length-32 and byte-range conditions model the Rust [u8; 32] type. -/
def Fr.from_bytes_checked (b : List Nat) : Option Fr :=
  if b.length = 32 ∧ (∀ x ∈ b, x < 256) ∧ leBytesToNat b < rOrder then
    some ((leBytesToNat b : Nat) : Fr)
  else
    none

/-- Model of decaf377 compression: canonical 32-byte encoding of a group
element, src Element::vartime_compress / compress. -/
def Elt.compress (P : Elt) : List Nat := natToLeBytes 32 (ZMod.val P)

/-- Model of decaf377 decompression, src Encoding::decompress /
vartime_decompress: succeeds exactly on the canonical encodings (the range of
Elt.compress), rejecting everything else. -/
def Elt.decompress (b : List Nat) : Option Elt :=
  if b.length = 32 ∧ (∀ x ∈ b, x < 256) ∧ leBytesToNat b < rOrder then
    some ((leBytesToNat b : Nat) : Elt)
  else
    none

/-- External constants of the library, quantified over in the theorems:
the Blake2b-512 digest with the personalization decaf377-rdsa--- (src
hash.rs, HStar::default), and the two domain basepoints (src domain.rs:
decaf377::basepoint for SpendAuth, hash_to_group of the label
decaf377-rdsa-binding for Binding). -/
structure Externals where
  digest : List Nat → List Nat
  spend_auth_base : Elt
  binding_base : Elt

/-- Src error.rs, enum Error. -/
inductive Error where
  | MalformedSigningKey : Error
  | MalformedVerificationKey : Error
  | InvalidSignature : Error
  | WrongSliceLength : Nat → Nat → Error
deriving DecidableEq

/-- Src domain.rs: the two signature domains SpendAuth and Binding, modelled
as a tag (the Rust code uses phantom types). -/
inductive Domain where
  | SpendAuth : Domain
  | Binding : Domain
deriving DecidableEq

/-- Src domain.rs, Sealed::basepoint for each domain. -/
def Domain.basepoint (ext : Externals) : Domain → Elt
  | Domain.SpendAuth => ext.spend_auth_base
  | Domain.Binding => ext.binding_base

/-- Src hash.rs, struct HStar: a streaming Blake2b-512 hasher; the state is
modelled as the byte string absorbed so far (Blake2b updates concatenate). -/
structure HStar where
  data : List Nat

/-- Src HStar::default: fresh state (personalization lives in Externals.digest). -/
def HStar.empty : HStar := HStar.mk []

/-- Src HStar::update: absorb data. -/
def HStar.update (h : HStar) (d : List Nat) : HStar := HStar.mk (h.data ++ d)

/-- Src HStar::finalize: digest the absorbed data and reduce the 64-byte
output modulo the field order. -/
def HStar.finalize (ext : Externals) (h : HStar) : Fr :=
  Fr.from_le_bytes_mod_order (ext.digest h.data)

/-- Hash-to-scalar of a whole byte string in one piece; equals any chain of
HStar updates absorbing the same concatenation. -/
def h_star (ext : Externals) (data : List Nat) : Fr :=
  Fr.from_le_bytes_mod_order (ext.digest data)

/-- Src signature.rs, struct Signature: a 64-byte blob (domain phantom tag
dropped; the domain is passed separately where the Rust code fixes it). -/
structure Signature where
  bytes : List Nat
deriving DecidableEq

/-- Src Signature::to_bytes. -/
def Signature.to_bytes (s : Signature) : List Nat := s.bytes

/-- Src From for Signature from a 64-byte array. -/
def Signature.from_bytes (b : List Nat) : Signature := Signature.mk b

/-- Src Signature::from_parts: R bytes then s bytes. -/
def Signature.from_parts (r_bytes s_bytes : List Nat) : Signature :=
  Signature.mk (r_bytes ++ s_bytes)

/-- Src Signature::r_bytes: first 32 bytes. -/
def Signature.r_bytes (s : Signature) : List Nat := s.bytes.take 32

/-- Src Signature::s_bytes: last 32 bytes. -/
def Signature.s_bytes (s : Signature) : List Nat := s.bytes.drop 32

/-- Src verification_key.rs, struct VerificationKey: a decompressed point
with its cached byte encoding (VerificationKeyBytes is the raw byte string). -/
structure VerificationKey where
  point : Elt
  bytes : List Nat
deriving DecidableEq

/-- Src TryFrom of VerificationKeyBytes for VerificationKey: decompress,
keeping the original bytes; the identity element is allowed. -/
def VerificationKey.try_from (b : List Nat) : Except Error VerificationKey :=
  match Elt.decompress b with
  | some point => Except.ok (VerificationKey.mk point b)
  | none => Except.error Error.MalformedVerificationKey

/-- Src VerificationKey::from (a scalar): basepoint scalar-multiple with its
compressed encoding. -/
def VerificationKey.derive (ext : Externals) (D : Domain) (s : Fr) : VerificationKey :=
  let point := smul s (Domain.basepoint ext D)
  VerificationKey.mk point (Elt.compress point)

/-- Src VerificationKey::randomize (SpendAuth only): add the randomizer
multiple of the SpendAuth basepoint and recompress. -/
def VerificationKey.randomize (ext : Externals) (vk : VerificationKey) (r : Fr) : VerificationKey :=
  let point := vk.point + smul r ext.spend_auth_base
  VerificationKey.mk point (Elt.compress point)

/-- Src signing_key.rs, struct SigningKey: scalar plus cached public key. -/
structure SigningKey where
  sk : Fr
  pk : VerificationKey
deriving DecidableEq

/-- Src SigningKey::new_from_field. -/
def SigningKey.new_from_field (ext : Externals) (D : Domain) (sk : Fr) : SigningKey :=
  SigningKey.mk sk (VerificationKey.derive ext D sk)

/-- Src SigningKey::new: fill 64 bytes from the RNG (modelled as the byte
string the RNG produced) and reduce modulo the field order. -/
def SigningKey.new (ext : Externals) (D : Domain) (random_bytes : List Nat) : SigningKey :=
  SigningKey.new_from_field ext D (Fr.from_le_bytes_mod_order random_bytes)

/-- Src TryFrom of a 32-byte array for SigningKey: canonical scalar decode. -/
def SigningKey.try_from (ext : Externals) (D : Domain) (b : List Nat) : Except Error SigningKey :=
  match Fr.from_bytes_checked b with
  | some sk => Except.ok (SigningKey.new_from_field ext D sk)
  | none => Except.error Error.MalformedSigningKey

/-- Src SigningKey::to_bytes. -/
def SigningKey.to_bytes (k : SigningKey) : List Nat := Fr.to_bytes k.sk

/-- Src SigningKey::randomize (SpendAuth only): add the randomizer to the
scalar and recompute the public key. -/
def SigningKey.randomize (ext : Externals) (k : SigningKey) (r : Fr) : SigningKey :=
  let sk := k.sk + r
  SigningKey.mk sk (VerificationKey.derive ext Domain.SpendAuth sk)

/-- Src SigningKey::sign_inner: synthetic nonce from
sk bytes, bonus randomness, pk bytes and the message; R commitment;
challenge; response. -/
def SigningKey.sign_inner (ext : Externals) (D : Domain) (k : SigningKey)
    (bonus_randomness msg : List Nat) : Signature :=
  let nonce := HStar.finalize ext
    (HStar.update (HStar.update (HStar.update (HStar.update HStar.empty
      (Fr.to_bytes k.sk)) bonus_randomness) k.pk.bytes) msg)
  let r_bytes := Elt.compress (smul nonce (Domain.basepoint ext D))
  let c := HStar.finalize ext
    (HStar.update (HStar.update (HStar.update HStar.empty r_bytes) k.pk.bytes) msg)
  let s_bytes := Fr.to_bytes (nonce + c * k.sk)
  Signature.from_parts r_bytes s_bytes

/-- Src SigningKey::sign: 48 bytes of bonus randomness drawn from the RNG
(modelled as the byte string the RNG produced). -/
def SigningKey.sign (ext : Externals) (D : Domain) (k : SigningKey)
    (rng_bytes msg : List Nat) : Signature :=
  SigningKey.sign_inner ext D k rng_bytes msg

/-- Src SigningKey::sign_deterministic: 48 zero bytes of bonus randomness. -/
def SigningKey.sign_deterministic (ext : Externals) (D : Domain) (k : SigningKey)
    (msg : List Nat) : Signature :=
  SigningKey.sign_inner ext D k (List.replicate 48 0) msg

/-- Src VerificationKey::verify_prehashed: decompress R, decode s with
canonical enforcement, then check the group equation. -/
def VerificationKey.verify_prehashed (ext : Externals) (D : Domain)
    (vk : VerificationKey) (sig : Signature) (c : Fr) : Except Error Unit :=
  match Elt.decompress (Signature.r_bytes sig) with
  | none => Except.error Error.InvalidSignature
  | some R =>
    match Fr.from_bytes_checked (Signature.s_bytes sig) with
    | none => Except.error Error.InvalidSignature
    | some s =>
      if smul s (Domain.basepoint ext D) - smul c vk.point - R = 0 then
        Except.ok ()
      else
        Except.error Error.InvalidSignature

/-- Src VerificationKey::verify: hash the challenge and defer to
verify_prehashed. -/
def VerificationKey.verify (ext : Externals) (D : Domain) (vk : VerificationKey)
    (msg : List Nat) (sig : Signature) : Except Error Unit :=
  let c := HStar.finalize ext
    (HStar.update (HStar.update (HStar.update HStar.empty
      (Signature.r_bytes sig)) vk.bytes) msg)
  VerificationKey.verify_prehashed ext D vk sig c

/-- Src batch.rs, gen_128_bits: a 128-bit scalar from two RNG u64 words. -/
def gen_128_bits (lo hi : Nat) : Fr :=
  (((lo % 2 ^ 64) + (hi % 2 ^ 64) * 2 ^ 64 : Nat) : Fr)

/-- Src batch.rs, struct Item (enum Inner): domain tag, verification key
bytes, signature, and the challenge precomputed at queue time. -/
structure Item where
  domain : Domain
  vk_bytes : List Nat
  sig : Signature
  c : Fr
deriving DecidableEq

/-- Src From impls building an Item: precompute the challenge from the
signature R bytes, the key bytes and the message. -/
def Item.build (ext : Externals) (D : Domain) (vk_bytes : List Nat)
    (sig : Signature) (msg : List Nat) : Item :=
  let c := HStar.finalize ext
    (HStar.update (HStar.update (HStar.update HStar.empty
      (Signature.r_bytes sig)) vk_bytes) msg)
  Item.mk D vk_bytes sig c

/-- The per-item decoding steps of the batch verify loop (src batch.rs,
Verifier::verify, loop body), in source order: canonical s decode
(failure mapped to InvalidSignature), R decompression (failure mapped to
InvalidSignature), then verification key decode through
VerificationKey::try_from (failure propagated unchanged). -/
def Item.decode (it : Item) : Except Error (Fr × Elt × Elt) :=
  match Fr.from_bytes_checked (Signature.s_bytes it.sig) with
  | none => Except.error Error.InvalidSignature
  | some s =>
    match Elt.decompress (Signature.r_bytes it.sig) with
    | none => Except.error Error.InvalidSignature
    | some R =>
      match VerificationKey.try_from it.vk_bytes with
      | Except.error e => Except.error e
      | Except.ok vk => Except.ok (s, R, vk.point)

/-- Accumulator state of the batch verify loop (src batch.rs: the two
basepoint coefficient sums and the four scratch vectors). -/
structure Accum where
  P_spendauth_coeff : Fr
  P_binding_coeff : Fr
  VK_coeffs : List Fr
  VKs : List Elt
  R_coeffs : List Fr
  Rs : List Elt

/-- Src batch.rs, Verifier::verify main loop: decode each item, draw a
128-bit blinding scalar (the RNG is modelled as the stream of u64 words it
produces, item i consuming words 2i and 2i+1), and accumulate. -/
def batch_accumulate (rand : Nat → Nat) : List Item → Nat → Accum → Except Error Accum
  | [], _, acc => Except.ok acc
  | it :: rest, i, acc =>
    match Item.decode it with
    | Except.error e => Except.error e
    | Except.ok (s, R, VK) =>
      let z := gen_128_bits (rand (2 * i)) (rand (2 * i + 1))
      let P_coeff := z * s
      let psa := match it.domain with
        | Domain.SpendAuth => acc.P_spendauth_coeff - P_coeff
        | Domain.Binding => acc.P_spendauth_coeff
      let pb := match it.domain with
        | Domain.SpendAuth => acc.P_binding_coeff
        | Domain.Binding => acc.P_binding_coeff - P_coeff
      batch_accumulate rand rest (i + 1)
        (Accum.mk psa pb (acc.VK_coeffs ++ [z * it.c]) (acc.VKs ++ [VK])
          (acc.R_coeffs ++ [z]) (acc.Rs ++ [R]))

/-- Src Element::vartime_multiscalar_mul: sum of scalar multiples, with
scalar and point vectors aligned by position. -/
def msm (scalars : List Fr) (points : List Elt) : Elt :=
  (List.zipWith smul scalars points).sum

/-- Src batch.rs, struct Verifier: the queued items. -/
structure Verifier where
  signatures : List Item

/-- Src Verifier::new. -/
def Verifier.new : Verifier := Verifier.mk []

/-- Src Verifier::queue. -/
def Verifier.queue (v : Verifier) (it : Item) : Verifier :=
  Verifier.mk (v.signatures ++ [it])

/-- Src Verifier::verify: run the loop, then test the single multiscalar
equation (basepoint coefficients first, then VK coefficients, then R
coefficients, aligned with the matching point vector). -/
def Verifier.verify (ext : Externals) (rand : Nat → Nat) (v : Verifier) : Except Error Unit :=
  match batch_accumulate rand v.signatures 0 (Accum.mk 0 0 [] [] [] []) with
  | Except.error e => Except.error e
  | Except.ok acc =>
    let scalars := acc.P_spendauth_coeff :: acc.P_binding_coeff ::
      (acc.VK_coeffs ++ acc.R_coeffs)
    let points := ext.spend_auth_base :: ext.binding_base :: (acc.VKs ++ acc.Rs)
    let check := msm scalars points
    if check = 0 then Except.ok () else Except.error Error.InvalidSignature

/-- Src VerificationKey::to_bytes. -/
def VerificationKey.to_bytes (vk : VerificationKey) : List Nat := vk.bytes

/-- The SigningKey invariant stated by the spec: the cached public key is the
domain basepoint times the signing scalar, with its compressed encoding. -/
def key_wf (ext : Externals) (D : Domain) (k : SigningKey) : Prop :=
  k.pk.point = smul k.sk (Domain.basepoint ext D)
    ∧ k.pk.bytes = Elt.compress k.pk.point

/-- A concrete instantiation of the external constants, used to evaluate the
development on explicit inputs. -/
def ext0 : Externals := Externals.mk (fun _ => List.replicate 64 1) 1 2

/-- A concrete RNG word stream. -/
def rand0 : Nat → Nat := fun _ => 0

/-- A batch item whose verification-key bytes are non-canonical (all 0xff)
while its signature bytes decode fine (all zero). -/
def bad_vk_item : Item :=
  Item.build ext0 Domain.Binding (List.replicate 32 255)
    (Signature.from_bytes (List.replicate 64 0)) []

/-- A single-item batch containing bad_vk_item. -/
def bad_vk_batch : Verifier := Verifier.queue Verifier.new bad_vk_item

/-- A batch item whose s bytes are non-canonical (all 0xff) while its
verification-key bytes are the identity encoding. -/
def bad_s_item : Item :=
  Item.build ext0 Domain.SpendAuth (Elt.compress 0)
    (Signature.from_bytes (List.replicate 64 255)) []

/-- A single-item batch containing bad_s_item. -/
def bad_s_batch : Verifier := Verifier.queue Verifier.new bad_s_item

/-! Helper lemmas about the byte encodings. -/

instance : NeZero rOrder := ⟨by decide⟩

instance {ε α : Type} [DecidableEq ε] [DecidableEq α] : DecidableEq (Except ε α) :=
  fun x y =>
    match x, y with
    | Except.ok a, Except.ok b => decidable_of_iff (a = b) (by simp)
    | Except.error a, Except.error b => decidable_of_iff (a = b) (by simp)
    | Except.ok _, Except.error _ => isFalse (by simp)
    | Except.error _, Except.ok _ => isFalse (by simp)

theorem natToLeBytes_length (k n : Nat) : (natToLeBytes k n).length = k := by
  induction k generalizing n with
  | zero => rfl
  | succ k ih => simp [natToLeBytes, ih]

theorem natToLeBytes_bytes (k n : Nat) : ∀ x ∈ natToLeBytes k n, x < 256 := by
  induction k generalizing n with
  | zero => simp [natToLeBytes]
  | succ k ih =>
    intro x hx
    simp only [natToLeBytes, List.mem_cons] at hx
    rcases hx with h | h
    · subst h; exact Nat.mod_lt _ (by norm_num)
    · exact ih _ x h

theorem leBytesToNat_natToLeBytes (k n : Nat) (h : n < 2 ^ (8 * k)) :
    leBytesToNat (natToLeBytes k n) = n := by
  induction k generalizing n with
  | zero =>
    simp only [natToLeBytes, leBytesToNat]
    omega
  | succ k ih =>
    have hk : 2 ^ (8 * (k + 1)) = 2 ^ (8 * k) * 256 := by
      rw [Nat.mul_succ, pow_add]; norm_num
    have hdiv : n / 256 < 2 ^ (8 * k) := by
      rw [hk] at h
      omega
    simp only [natToLeBytes, leBytesToNat, ih _ hdiv]
    omega

theorem natToLeBytes_leBytesToNat (b : List Nat) (hb : ∀ x ∈ b, x < 256) :
    natToLeBytes b.length (leBytesToNat b) = b := by
  induction b with
  | nil => rfl
  | cons x rest ih =>
    have hx : x < 256 := hb x (by simp)
    have hmod : (x + 256 * leBytesToNat rest) % 256 = x := by omega
    have hdiv : (x + 256 * leBytesToNat rest) / 256 = leBytesToNat rest := by omega
    simp only [leBytesToNat, List.length_cons, natToLeBytes, hmod, hdiv, List.cons.injEq, true_and]
    exact ih (fun y hy => hb y (by simp [hy]))

theorem rOrder_lt_pow : rOrder < 2 ^ (8 * 32) := by decide

theorem decompress_compress (P : Elt) : Elt.decompress (Elt.compress P) = some P := by
  unfold Elt.decompress Elt.compress
  rw [if_pos]
  · rw [leBytesToNat_natToLeBytes 32 _ (lt_trans (ZMod.val_lt P) rOrder_lt_pow)]
    exact congrArg some (ZMod.natCast_rightInverse P)
  · refine ⟨natToLeBytes_length 32 _, natToLeBytes_bytes 32 _, ?_⟩
    rw [leBytesToNat_natToLeBytes 32 _ (lt_trans (ZMod.val_lt P) rOrder_lt_pow)]
    exact ZMod.val_lt P

theorem compress_of_decompress (b : List Nat) (P : Elt)
    (h : Elt.decompress b = some P) : Elt.compress P = b ∧ b.length = 32 := by
  unfold Elt.decompress at h
  by_cases hc : b.length = 32 ∧ (∀ x ∈ b, x < 256) ∧ leBytesToNat b < rOrder
  · rw [if_pos hc] at h
    obtain ⟨hlen, hbytes, hlt⟩ := hc
    have hP : P = ((leBytesToNat b : Nat) : Elt) := by
      injection h with h2
      exact h2.symm
    subst hP
    refine ⟨?_, hlen⟩
    unfold Elt.compress
    rw [ZMod.val_cast_of_lt hlt, ← hlen]
    exact natToLeBytes_leBytesToNat b hbytes
  · rw [if_neg hc] at h
    exact absurd h (by simp)

theorem from_bytes_checked_to_bytes (s : Fr) :
    Fr.from_bytes_checked (Fr.to_bytes s) = some s := by
  unfold Fr.from_bytes_checked Fr.to_bytes
  rw [if_pos]
  · rw [leBytesToNat_natToLeBytes 32 _ (lt_trans (ZMod.val_lt s) rOrder_lt_pow)]
    exact congrArg some (ZMod.natCast_rightInverse s)
  · refine ⟨natToLeBytes_length 32 _, natToLeBytes_bytes 32 _, ?_⟩
    rw [leBytesToNat_natToLeBytes 32 _ (lt_trans (ZMod.val_lt s) rOrder_lt_pow)]
    exact ZMod.val_lt s

theorem to_bytes_of_from_bytes_checked (b : List Nat) (s : Fr)
    (h : Fr.from_bytes_checked b = some s) : Fr.to_bytes s = b ∧ b.length = 32 := by
  unfold Fr.from_bytes_checked at h
  by_cases hc : b.length = 32 ∧ (∀ x ∈ b, x < 256) ∧ leBytesToNat b < rOrder
  · rw [if_pos hc] at h
    obtain ⟨hlen, hbytes, hlt⟩ := hc
    have hs : s = ((leBytesToNat b : Nat) : Fr) := by
      injection h with h2
      exact h2.symm
    subst hs
    refine ⟨?_, hlen⟩
    unfold Fr.to_bytes
    rw [ZMod.val_cast_of_lt hlt, ← hlen]
    exact natToLeBytes_leBytesToNat b hbytes
  · rw [if_neg hc] at h
    exact absurd h (by simp)

theorem to_bytes_length (s : Fr) : (Fr.to_bytes s).length = 32 :=
  natToLeBytes_length 32 _

theorem compress_length (P : Elt) : (Elt.compress P).length = 32 :=
  natToLeBytes_length 32 _

/-! Core lemmas shared by several claims. -/

theorem verify_from_parts_ok (ext : Externals) (D : Domain) (vk : VerificationKey)
    (msg : List Nat) (R0 : Elt) (s0 : Fr)
    (h : smul s0 (Domain.basepoint ext D)
        - smul (HStar.finalize ext (HStar.update (HStar.update (HStar.update HStar.empty
            (Elt.compress R0)) vk.bytes) msg)) vk.point
        - R0 = 0) :
    VerificationKey.verify ext D vk msg
      (Signature.from_parts (Elt.compress R0) (Fr.to_bytes s0)) = Except.ok () := by
  have hr : Signature.r_bytes (Signature.from_parts (Elt.compress R0) (Fr.to_bytes s0))
      = Elt.compress R0 := by
    unfold Signature.r_bytes Signature.from_parts
    exact List.take_left' (compress_length R0)
  have hs : Signature.s_bytes (Signature.from_parts (Elt.compress R0) (Fr.to_bytes s0))
      = Fr.to_bytes s0 := by
    unfold Signature.s_bytes Signature.from_parts
    exact List.drop_left' (compress_length R0)
  simp only [VerificationKey.verify, VerificationKey.verify_prehashed, hr, hs,
    decompress_compress, from_bytes_checked_to_bytes]
  rw [if_pos h]

theorem sign_inner_verify_ok (ext : Externals) (D : Domain) (k : SigningKey)
    (hk : k.pk.point = smul k.sk (Domain.basepoint ext D)) (bonus msg : List Nat) :
    VerificationKey.verify ext D k.pk msg (SigningKey.sign_inner ext D k bonus msg)
      = Except.ok () := by
  simp only [SigningKey.sign_inner]
  apply verify_from_parts_ok
  rw [hk]
  unfold smul
  ring

theorem hstar4 (ext : Externals) (a b c d : List Nat) :
    HStar.finalize ext (HStar.update (HStar.update (HStar.update (HStar.update
      HStar.empty a) b) c) d) = h_star ext (a ++ b ++ c ++ d) := by
  simp [HStar.finalize, HStar.update, HStar.empty, h_star]

theorem hstar3 (ext : Externals) (a b c : List Nat) :
    HStar.finalize ext (HStar.update (HStar.update (HStar.update
      HStar.empty a) b) c) = h_star ext (a ++ b ++ c) := by
  simp [HStar.finalize, HStar.update, HStar.empty, h_star]

theorem decode_error_kinds (it : Item) (e : Error) (h : Item.decode it = Except.error e) :
    (e = Error.InvalidSignature ∨ e = Error.MalformedVerificationKey)
    ∧ (e = Error.MalformedVerificationKey → Elt.decompress it.vk_bytes = none) := by
  unfold Item.decode at h
  cases hS : Fr.from_bytes_checked (Signature.s_bytes it.sig) with
  | none =>
    rw [hS] at h
    injection h with h2
    exact ⟨Or.inl h2.symm, fun he => absurd (h2 ▸ he) (by simp)⟩
  | some s =>
    rw [hS] at h
    cases hR : Elt.decompress (Signature.r_bytes it.sig) with
    | none =>
      rw [hR] at h
      injection h with h2
      exact ⟨Or.inl h2.symm, fun he => absurd (h2 ▸ he) (by simp)⟩
    | some R =>
      rw [hR] at h
      cases hV : VerificationKey.try_from it.vk_bytes with
      | error e2 =>
        rw [hV] at h
        injection h with h2
        unfold VerificationKey.try_from at hV
        cases hD : Elt.decompress it.vk_bytes with
        | none =>
          rw [hD] at hV
          injection hV with h3
          exact ⟨Or.inr (h2.symm.trans h3.symm), fun _ => rfl⟩
        | some P =>
          rw [hD] at hV
          exact absurd hV (by simp)
      | ok vk =>
        rw [hV] at h
        exact absurd h (by simp)

theorem batch_accumulate_ok_decodes (rand : Nat → Nat) (items : List Item) :
    ∀ (i : Nat) (acc acc2 : Accum),
      batch_accumulate rand items i acc = Except.ok acc2 →
      ∀ it ∈ items, ∃ t, Item.decode it = Except.ok t := by
  induction items with
  | nil => intro i acc acc2 _ it hmem; exact absurd hmem (by simp)
  | cons hd rest ih =>
    intro i acc acc2 hacc it hmem
    unfold batch_accumulate at hacc
    cases hD : Item.decode hd with
    | error e => rw [hD] at hacc; exact absurd hacc (by simp)
    | ok t =>
      rw [hD] at hacc
      rcases List.mem_cons.mp hmem with h | h
      · exact ⟨t, h ▸ hD⟩
      · exact ih _ _ _ hacc it h

theorem batch_accumulate_error_source (rand : Nat → Nat) (items : List Item) :
    ∀ (i : Nat) (acc : Accum) (e : Error),
      batch_accumulate rand items i acc = Except.error e →
      ∃ it ∈ items, Item.decode it = Except.error e := by
  induction items with
  | nil => intro i acc e h; exact absurd h (by simp [batch_accumulate])
  | cons hd rest ih =>
    intro i acc e h
    unfold batch_accumulate at h
    cases hD : Item.decode hd with
    | error e2 =>
      rw [hD] at h
      injection h with h2
      exact ⟨hd, by simp, h2 ▸ hD⟩
    | ok t =>
      rw [hD] at h
      obtain ⟨it, hmem, hit⟩ := ih _ _ _ h
      exact ⟨it, by simp [hmem], hit⟩

/-! Claim theorems. -/

/-- C2: for every signing key, message and RNG output, verifying a signature
just produced over the message by that key succeeds, in every domain, both
for the randomized sign and for sign_deterministic. -/
theorem C2_sign_verify (ext : Externals) (D : Domain) (sk : Fr)
    (rng_bytes msg : List Nat) :
    VerificationKey.verify ext D (SigningKey.new_from_field ext D sk).pk msg
      (SigningKey.sign ext D (SigningKey.new_from_field ext D sk) rng_bytes msg)
      = Except.ok ()
    ∧ VerificationKey.verify ext D (SigningKey.new_from_field ext D sk).pk msg
      (SigningKey.sign_deterministic ext D (SigningKey.new_from_field ext D sk) msg)
      = Except.ok () := by
  constructor
  · exact sign_inner_verify_ok ext D _ rfl rng_bytes msg
  · exact sign_inner_verify_ok ext D _ rfl (List.replicate 48 0) msg

/-- C3: signing follows exactly the stated steps: the nonce is the
hash-to-scalar of sk bytes, bonus randomness, pk bytes and the message; R is
the basepoint times the nonce; the challenge hashes R bytes, pk bytes and the
message; s is nonce plus challenge times sk; the returned 64-byte signature
is R bytes followed by the canonical encoding of s; and sign_deterministic is
sign with 48 zero bytes of bonus randomness. -/
theorem C3_sign_steps (ext : Externals) (D : Domain) (k : SigningKey)
    (bonus msg : List Nat) :
    (SigningKey.sign ext D k bonus msg).bytes
      = Elt.compress (smul (h_star ext (Fr.to_bytes k.sk ++ bonus ++ k.pk.bytes ++ msg))
          (Domain.basepoint ext D))
        ++ Fr.to_bytes (h_star ext (Fr.to_bytes k.sk ++ bonus ++ k.pk.bytes ++ msg)
          + h_star ext (Elt.compress (smul
              (h_star ext (Fr.to_bytes k.sk ++ bonus ++ k.pk.bytes ++ msg))
              (Domain.basepoint ext D)) ++ k.pk.bytes ++ msg) * k.sk)
    ∧ (SigningKey.sign ext D k bonus msg).bytes.length = 64
    ∧ SigningKey.sign_deterministic ext D k msg
      = SigningKey.sign ext D k (List.replicate 48 0) msg := by
  refine ⟨?_, ?_, rfl⟩
  · simp only [SigningKey.sign, SigningKey.sign_inner, hstar4, hstar3,
      Signature.from_parts]
  · simp only [SigningKey.sign, SigningKey.sign_inner, Signature.from_parts,
      List.length_append, compress_length, to_bytes_length]

/-- C5: key randomization commutes with public-key derivation in the
SpendAuth domain: randomizing the signing key and deriving its public key
gives the randomized public key; the signing-key randomizer adds r to the
scalar, and the verification-key randomizer adds r times the SpendAuth
basepoint to the point. -/
theorem C5_randomize_commutes (ext : Externals) (sk r : Fr) (vk : VerificationKey) :
    (SigningKey.randomize ext (SigningKey.new_from_field ext Domain.SpendAuth sk) r).pk
      = VerificationKey.randomize ext
          (SigningKey.new_from_field ext Domain.SpendAuth sk).pk r
    ∧ (SigningKey.randomize ext (SigningKey.new_from_field ext Domain.SpendAuth sk) r).sk
      = sk + r
    ∧ (VerificationKey.randomize ext vk r).point = vk.point + smul r ext.spend_auth_base := by
  refine ⟨?_, rfl, rfl⟩
  simp only [SigningKey.randomize, SigningKey.new_from_field, VerificationKey.derive,
    VerificationKey.randomize, Domain.basepoint]
  have hpt : smul (sk + r) ext.spend_auth_base
      = smul sk ext.spend_auth_base + smul r ext.spend_auth_base := by
    unfold smul; ring
  rw [hpt]

/-- C6: sign_deterministic is a deterministic function of the signing scalar
and the message: two well-formed keys with the same scalar produce
byte-identical signatures on the same message. -/
theorem C6_deterministic (ext : Externals) (D : Domain) (k1 k2 : SigningKey)
    (msg : List Nat) (h1 : key_wf ext D k1) (h2 : key_wf ext D k2)
    (hsk : k1.sk = k2.sk) :
    SigningKey.sign_deterministic ext D k1 msg
      = SigningKey.sign_deterministic ext D k2 msg := by
  have hpk : k1.pk.bytes = k2.pk.bytes := by
    rw [h1.2, h2.2, h1.1, h2.1, hsk]
  simp only [SigningKey.sign_deterministic, SigningKey.sign_inner, hsk, hpk]

/-- Witness for C6 at concrete inputs: a key built from the scalar one and a
key built by randomizing the zero key with one have equal scalars and yield
the same deterministic signature. -/
theorem C6_deterministic_witness :
    SigningKey.sign_deterministic ext0 Domain.SpendAuth
      (SigningKey.new_from_field ext0 Domain.SpendAuth 1) [7]
    = SigningKey.sign_deterministic ext0 Domain.SpendAuth
      (SigningKey.randomize ext0 (SigningKey.new_from_field ext0 Domain.SpendAuth 0) 1) [7] :=
  C6_deterministic ext0 Domain.SpendAuth _ _ [7] ⟨rfl, rfl⟩ ⟨rfl, rfl⟩ (by decide)

/-- C7: byte round-trips: a canonical 32-byte scalar encoding yields a
signing key whose to_bytes is the original bytes; a valid compressed point
yields a verification key whose to_bytes is the original bytes; a 64-byte
array yields a signature whose to_bytes is the original bytes. -/
theorem C7_round_trips (ext : Externals) (D : Domain)
    (bsk bpt b64 : List Nat) (P : Elt)
    (h1 : bsk.length = 32) (h2 : ∀ x ∈ bsk, x < 256)
    (h3 : leBytesToNat bsk < rOrder)
    (hpt : Elt.decompress bpt = some P)
    (h64 : b64.length = 64) :
    (∃ k, SigningKey.try_from ext D bsk = Except.ok k
        ∧ SigningKey.to_bytes k = bsk)
    ∧ (∃ vk, VerificationKey.try_from bpt = Except.ok vk
        ∧ VerificationKey.to_bytes vk = bpt)
    ∧ Signature.to_bytes (Signature.from_bytes b64) = b64 := by
  refine ⟨?_, ?_, rfl⟩
  · have hsome : Fr.from_bytes_checked bsk = some ((leBytesToNat bsk : Nat) : Fr) := by
      unfold Fr.from_bytes_checked
      rw [if_pos ⟨h1, h2, h3⟩]
    refine ⟨SigningKey.new_from_field ext D ((leBytesToNat bsk : Nat) : Fr), ?_, ?_⟩
    · simp [SigningKey.try_from, hsome]
    · exact (to_bytes_of_from_bytes_checked bsk _ hsome).1
  · refine ⟨VerificationKey.mk P bpt, ?_, rfl⟩
    simp [VerificationKey.try_from, hpt]

/-- Witness for C7 at concrete inputs: the canonical encoding of the scalar
one, the compressed identity point, and a 64-byte array of ones. -/
theorem C7_round_trips_witness :
    (∃ k, SigningKey.try_from ext0 Domain.SpendAuth (Fr.to_bytes 1) = Except.ok k
        ∧ SigningKey.to_bytes k = Fr.to_bytes 1)
    ∧ (∃ vk, VerificationKey.try_from (Elt.compress 0) = Except.ok vk
        ∧ VerificationKey.to_bytes vk = Elt.compress 0)
    ∧ Signature.to_bytes (Signature.from_bytes (List.replicate 64 1))
      = List.replicate 64 1 :=
  C7_round_trips ext0 Domain.SpendAuth (Fr.to_bytes 1) (Elt.compress 0)
    (List.replicate 64 1) 0 (by decide) (by decide) (by decide) (by decide) (by decide)

/-- C8: verifying an empty batch succeeds for every RNG: the multiscalar sum
with zero basepoint coefficients is the identity. -/
theorem C8_empty_batch (ext : Externals) (rand : Nat → Nat) :
    Verifier.verify ext rand Verifier.new = Except.ok () := by
  simp [Verifier.verify, Verifier.new, batch_accumulate, msm, smul]

/-- C9: the group identity is a permitted verification key: promoting its
32-byte encoding succeeds, the key derived from the zero scalar in the
Binding domain is the identity, and a deterministic signature produced with
the zero scalar verifies under that key. -/
theorem C9_identity_key (ext : Externals) (msg : List Nat) :
    VerificationKey.try_from (Elt.compress 0)
      = Except.ok (VerificationKey.mk 0 (Elt.compress 0))
    ∧ (SigningKey.new_from_field ext Domain.Binding 0).pk.point = 0
    ∧ VerificationKey.verify ext Domain.Binding
        (SigningKey.new_from_field ext Domain.Binding 0).pk msg
        (SigningKey.sign_deterministic ext Domain.Binding
          (SigningKey.new_from_field ext Domain.Binding 0) msg)
      = Except.ok () := by
  refine ⟨?_, ?_, ?_⟩
  · simp [VerificationKey.try_from, decompress_compress]
  · simp [SigningKey.new_from_field, VerificationKey.derive, smul]
  · exact sign_inner_verify_ok ext Domain.Binding _ rfl (List.replicate 48 0) msg

/-- C10: every signing-key construction path (adopting a field element,
sampling random bytes, decoding canonical bytes) and randomization produce a
key whose cached public key is the domain basepoint times the signing scalar
with its compressed encoding. -/
theorem C10_invariant (ext : Externals) (D : Domain) :
    (∀ sk : Fr, key_wf ext D (SigningKey.new_from_field ext D sk))
    ∧ (∀ random_bytes : List Nat, key_wf ext D (SigningKey.new ext D random_bytes))
    ∧ (∀ b k, SigningKey.try_from ext D b = Except.ok k → key_wf ext D k)
    ∧ (∀ (k : SigningKey) (r : Fr), key_wf ext Domain.SpendAuth k →
        key_wf ext Domain.SpendAuth (SigningKey.randomize ext k r)) := by
  refine ⟨fun sk => ⟨rfl, rfl⟩, fun rb => ⟨rfl, rfl⟩, ?_, fun k r _ => ⟨rfl, rfl⟩⟩
  intro b k h
  unfold SigningKey.try_from at h
  cases hS : Fr.from_bytes_checked b with
  | none => rw [hS] at h; exact absurd h (by simp)
  | some sk =>
    rw [hS] at h
    injection h with h2
    rw [← h2]
    exact ⟨rfl, rfl⟩

/-- Witness for C10 at concrete inputs: decoding the canonical encoding of
the scalar one and randomizing the resulting key both give well-formed keys. -/
theorem C10_invariant_witness :
    SigningKey.try_from ext0 Domain.SpendAuth (Fr.to_bytes 1)
      = Except.ok (SigningKey.new_from_field ext0 Domain.SpendAuth 1)
    ∧ key_wf ext0 Domain.SpendAuth (SigningKey.new_from_field ext0 Domain.SpendAuth 1)
    ∧ key_wf ext0 Domain.SpendAuth
        (SigningKey.randomize ext0 (SigningKey.new_from_field ext0 Domain.SpendAuth 1) 3) :=
  ⟨by decide,
   (C10_invariant ext0 Domain.SpendAuth).2.2.1 (Fr.to_bytes 1) _ (by decide),
   (C10_invariant ext0 Domain.SpendAuth).2.2.2 _ 3
     ((C10_invariant ext0 Domain.SpendAuth).1 1)⟩

/-- C4: single verification returns an error only of kind InvalidSignature;
any decode failure of R or s yields that error; and it returns Ok exactly
when both decodes succeed and s times the basepoint minus the challenge times
the key point minus R is the group identity, the challenge hashing R bytes,
key bytes and the message. -/
theorem C4_verify_spec (ext : Externals) (D : Domain) (vk : VerificationKey)
    (msg : List Nat) (sig : Signature) :
    (∀ e, VerificationKey.verify ext D vk msg sig = Except.error e
        → e = Error.InvalidSignature)
    ∧ ((Elt.decompress (Signature.r_bytes sig) = none
        ∨ Fr.from_bytes_checked (Signature.s_bytes sig) = none)
        → VerificationKey.verify ext D vk msg sig = Except.error Error.InvalidSignature)
    ∧ (VerificationKey.verify ext D vk msg sig = Except.ok ()
        ↔ ∃ R s, Elt.decompress (Signature.r_bytes sig) = some R
            ∧ Fr.from_bytes_checked (Signature.s_bytes sig) = some s
            ∧ smul s (Domain.basepoint ext D)
              - smul (h_star ext (Signature.r_bytes sig ++ vk.bytes ++ msg)) vk.point
              - R = 0) := by
  unfold VerificationKey.verify VerificationKey.verify_prehashed
  rw [hstar3]
  cases hR : Elt.decompress (Signature.r_bytes sig) with
  | none => simp [hR]
  | some R =>
    cases hS : Fr.from_bytes_checked (Signature.s_bytes sig) with
    | none => simp [hS]
    | some s =>
      by_cases heq : smul s (Domain.basepoint ext D)
          - smul (h_star ext (Signature.r_bytes sig ++ (vk.bytes ++ msg))) vk.point
          - R = 0
      · simp [hR, hS, heq, List.append_assoc]
      · simp [hR, hS, heq, List.append_assoc]

/-- Witness for C4 at concrete inputs: a signature of 64 bytes of 0xff has a
non-canonical s encoding and is rejected with InvalidSignature. -/
theorem C4_verify_spec_witness :
    VerificationKey.verify ext0 Domain.SpendAuth (VerificationKey.mk 0 (Elt.compress 0))
      [] (Signature.from_bytes (List.replicate 64 255))
      = Except.error Error.InvalidSignature :=
  (C4_verify_spec ext0 Domain.SpendAuth (VerificationKey.mk 0 (Elt.compress 0))
    [] (Signature.from_bytes (List.replicate 64 255))).2.1 (Or.inr (by decide))

/-- Counterexample to C1: a queued item with non-canonical verification-key
bytes (a decode failure of A) fails the batch with MalformedVerificationKey,
not InvalidSignature. -/
theorem C1_counterexample :
    Elt.decompress bad_vk_item.vk_bytes = none
    ∧ Verifier.verify ext0 rand0 bad_vk_batch
      = Except.error Error.MalformedVerificationKey
    ∧ Error.MalformedVerificationKey ≠ Error.InvalidSignature := by
  refine ⟨by decide, by decide, by decide⟩

/-- C1 amended: every decode failure of a queued item (non-canonical s,
non-canonical R, or non-canonical A) fails the whole batch; the resulting
error identifies no item and is always either InvalidSignature or
MalformedVerificationKey, the latter occurring exactly when the first failing
decode is of the verification-key bytes. -/
theorem C1_batch_decode_failure (ext : Externals) (rand : Nat → Nat) (v : Verifier) :
    (∀ it ∈ v.signatures, ∀ e, Item.decode it = Except.error e →
        ∃ e2, Verifier.verify ext rand v = Except.error e2)
    ∧ (∀ e2, Verifier.verify ext rand v = Except.error e2 →
        e2 = Error.InvalidSignature ∨ e2 = Error.MalformedVerificationKey)
    ∧ (∀ (it : Item) (e : Error), Item.decode it = Except.error e →
        (e = Error.InvalidSignature ∨ e = Error.MalformedVerificationKey)
        ∧ (e = Error.MalformedVerificationKey → Elt.decompress it.vk_bytes = none)) := by
  refine ⟨?_, ?_, fun it e h => decode_error_kinds it e h⟩
  · intro it hmem e hdec
    cases hacc : batch_accumulate rand v.signatures 0 (Accum.mk 0 0 [] [] [] []) with
    | error e2 =>
      exact ⟨e2, by simp [Verifier.verify, hacc]⟩
    | ok acc =>
      obtain ⟨t, ht⟩ := batch_accumulate_ok_decodes rand v.signatures 0 _ _ hacc it hmem
      rw [hdec] at ht
      exact absurd ht (by simp)
  · intro e2 hv
    cases hacc : batch_accumulate rand v.signatures 0 (Accum.mk 0 0 [] [] [] []) with
    | error e =>
      simp only [Verifier.verify, hacc] at hv
      injection hv with h2
      obtain ⟨it, _, hit⟩ := batch_accumulate_error_source rand v.signatures 0 _ e hacc
      exact h2 ▸ (decode_error_kinds it e hit).1
    | ok acc =>
      simp only [Verifier.verify, hacc] at hv
      by_cases hc : msm (acc.P_spendauth_coeff :: acc.P_binding_coeff ::
          (acc.VK_coeffs ++ acc.R_coeffs))
          (ext.spend_auth_base :: ext.binding_base :: (acc.VKs ++ acc.Rs)) = 0
      · rw [if_pos hc] at hv
        exact absurd hv (by simp)
      · rw [if_neg hc] at hv
        injection hv with h2
        exact Or.inl h2.symm

/-- Witness for the amended C1 at concrete inputs: a batch holding one item
with non-canonical s bytes fails. -/
theorem C1_batch_decode_failure_witness :
    Item.decode bad_s_item = Except.error Error.InvalidSignature
    ∧ ∃ e2, Verifier.verify ext0 rand0 bad_s_batch = Except.error e2 :=
  ⟨by decide,
   (C1_batch_decode_failure ext0 rand0 bad_s_batch).1 bad_s_item
     (by simp [bad_s_batch, Verifier.queue, Verifier.new])
     Error.InvalidSignature (by decide)⟩
